import Mathlib

/-!
# OTA Transfer Protocol Engine — verification of the spec against `src/index.tsx`

Shallow embedding of the protocol core of the BLE OTA web app.  Bytes are
modelled as `Nat` (each entry `< 256` where the code writes a byte); buffers
are `List Nat`.  The asynchronous acknowledgement path is modelled by an
oracle `ack : AckKey → Option Nat`: `some st` means the awaited notification
for that key eventually arrives carrying status `st`, `none` means the
12-second timer fires first.  Each key is awaited at most once per run, so a
function of the key is a faithful model of the run's acknowledgement history.
-/

namespace Ota

/-- `SECTOR_SIZE` constant of the source (line 16). -/
def SECTOR_SIZE : Nat := 4096

/-- Acknowledgement timeout in milliseconds (`setTimeout(..., 12000)`, line 121). -/
def ACK_TIMEOUT_MS : Nat := 12000

/-- `Math.ceil(a / b)` on nonnegative integers (exact for the sizes involved). -/
def ceilDiv (a b : Nat) : Nat := (a + b - 1) / b

/-- The slice `xs.slice(i*size, (i+1)*size)` used both for sectors
(line 138, `size = SECTOR_SIZE`) and for packet chunks (line 142,
`size = pSize`). -/
def chunkAt (size : Nat) (xs : List Nat) (i : Nat) : List Nat :=
  (xs.drop (i * size)).take size

/-- Number of chunks: `Math.ceil(xs.length / size)` (lines 134 and 139). -/
def numChunks (size : Nat) (xs : List Nat) : Nat := ceilDiv xs.length size

/-- Little-endian 16-bit encoding, as `DataView.setUint16(_, v, true)`. -/
def u16le (v : Nat) : List Nat := [v % 256, v / 256 % 256]

/-- Little-endian 32-bit encoding, as `DataView.setUint32(_, v, true)`. -/
def u32le (v : Nat) : List Nat :=
  [v % 256, v / 256 % 256, v / 65536 % 256, v / 16777216 % 256]

/-- The packet payload size: `fastMode ? 244 : 20` (line 135). -/
def pSizeOf (fastMode : Bool) : Nat := if fastMode then 244 else 20

/-- The bytes of packet `p` of sector `s` (lines 141-147): 16-bit LE sector
index, one sequence byte (`0xFF` on the last packet, else `p`, truncated to
8 bits by `setUint8`), then the chunk of the sector data. -/
def packetBytes (s : Nat) (sData : List Nat) (pSize : Nat) (p : Nat) : List Nat :=
  u16le s ++ [if p = numChunks pSize sData - 1 then 0xFF else p % 256] ++
    chunkAt pSize sData p

/-- All packets of one sector, in transmission order (loop at line 141). -/
def packetsOf (s : Nat) (sData : List Nat) (pSize : Nat) : List (List Nat) :=
  (List.range (numChunks pSize sData)).map (packetBytes s sData pSize)

/-- The sector data for index `s`: `raw.slice(s*SECTOR_SIZE, (s+1)*SECTOR_SIZE)`
(line 138), with the sector size as a parameter. -/
def sectorDataAt (sectorSize : Nat) (raw : List Nat) (s : Nat) : List Nat :=
  chunkAt sectorSize raw s

/-- The sectors of an image: slices for `s = 0 .. ceil(length/sectorSize) - 1`
(lines 134, 137-138). -/
def sectorsOf (sectorSize : Nat) (raw : List Nat) : List (List Nat) :=
  (List.range (ceilDiv raw.length sectorSize)).map (sectorDataAt sectorSize raw)

/-- Sequence byte of a packet: the third byte of the wire format. -/
def seqOf : List Nat → Nat
  | _ :: _ :: q :: _ => q
  | _ => 256

/-- Payload of a packet: everything after the 3-byte header. -/
def payloadOf (pkt : List Nat) : List Nat := pkt.drop 3

/-- Decoded sector index of a data packet: first two bytes, little-endian. -/
def pktSector : List Nat → Nat
  | b0 :: b1 :: _ => b0 + 256 * b1
  | _ => 0

/- ### Arithmetic facts about `ceilDiv` -/

theorem ceilDiv_mul_ge (a b : Nat) (hb : 0 < b) : a ≤ ceilDiv a b * b := by
  unfold ceilDiv
  rcases Nat.eq_zero_or_pos a with ha | ha
  · simp [ha]
  have hd := Nat.div_add_mod (a + b - 1) b
  rw [Nat.mul_comm] at hd
  have hm : (a + b - 1) % b < b := Nat.mod_lt _ hb
  omega

theorem lt_of_lt_ceilDiv (a b k : Nat) (hb : 0 < b) (hk : k < ceilDiv a b) :
    k * b < a := by
  unfold ceilDiv at hk
  have hd := Nat.div_add_mod (a + b - 1) b
  rw [Nat.mul_comm] at hd
  have hm : (a + b - 1) % b < b := Nat.mod_lt _ hb
  have h1 : k + 1 ≤ (a + b - 1) / b := hk
  have h2 : (k + 1) * b ≤ (a + b - 1) / b * b := Nat.mul_le_mul_right b h1
  rw [Nat.succ_mul] at h2
  omega

theorem ceilDiv_le_of_le (a a' b : Nat) (h : a ≤ a') :
    ceilDiv a b ≤ ceilDiv a' b := by
  unfold ceilDiv
  exact Nat.div_le_div_right (by omega)

theorem ceilDiv_pos (a b : Nat) (hb : 0 < b) (ha : 0 < a) : 0 < ceilDiv a b := by
  unfold ceilDiv
  have : b ≤ a + b - 1 := by omega
  exact Nat.div_pos this hb

/- ### Chunking lemmas -/

theorem chunkAt_length (size : Nat) (xs : List Nat) (i : Nat) :
    (chunkAt size xs i).length = min size (xs.length - i * size) := by
  simp [chunkAt]

theorem flatten_chunks_take (size : Nat) (xs : List Nat) :
    ∀ k, ((List.range k).map (chunkAt size xs)).flatten = xs.take (k * size) := by
  intro k
  induction k with
  | zero => simp
  | succ n ih =>
    rw [List.range_succ, List.map_append, List.flatten_append, ih]
    simp only [List.map_cons, List.map_nil, List.flatten_cons, List.flatten_nil,
      List.append_nil, chunkAt]
    rw [← List.take_add]
    congr 1
    ring

theorem flatten_chunks (size : Nat) (xs : List Nat) (hs : 0 < size) :
    ((List.range (numChunks size xs)).map (chunkAt size xs)).flatten = xs := by
  rw [flatten_chunks_take]
  exact List.take_of_length_le (ceilDiv_mul_ge xs.length size hs)

/- ### Acknowledgement registry (`ackResolvers`, lines 25, 59-75, 120-123) -/

/-- Keys of the `ackResolvers` map: `cmd_<opcode>` and `sector_<index>`. -/
inductive AckKey
  | cmd (opcode : Nat)
  | sector (idx : Nat)
deriving DecidableEq, Repr

/-- The `ackResolvers.current` JS object: at most one resolver per key.
Resolver closures are identified by a `Nat` tag. -/
def Registry := List (AckKey × Nat)

instance : DecidableEq Registry := inferInstanceAs (DecidableEq (List (AckKey × Nat)))

/-- Lookup in the JS object (one binding per key). -/
def lookupR (reg : Registry) (k : AckKey) : Option Nat :=
  (reg.find? (fun p => decide (p.1 = k))).map (·.2)

/-- `ackResolvers.current[key] = resolver` — JS property assignment:
the previous binding for the key, if any, is silently replaced. -/
def setR (reg : Registry) (k : AckKey) (r : Nat) : Registry :=
  (k, r) :: reg.filter (fun p => decide (p.1 ≠ k))

/-- The registration step of `wait(key)` (lines 120-122): arm a 12000 ms
timer and store the resolver under the key.  The code has no error path
here: an existing waiter is overwritten, never rejected. -/
def waitRegister (reg : Registry) (key : AckKey) (rid : Nat) : Nat × Registry :=
  (ACK_TIMEOUT_MS, setR reg key rid)

/-- The timeout path of `wait(key)` (line 121): the promise is rejected
with the message below; the registry is not touched (no `delete`). -/
def waitOnTimeout (reg : Registry) (_key : AckKey) : Registry × String :=
  (reg, "ACK Timeout")

/-- `handleAck` (lines 59-75): if a resolver is registered for the decoded
key, invoke it with the status; the entry is not removed.  Returns the
resolver tag invoked, if any, and the (unchanged) registry. -/
def handleAckFulfill (reg : Registry) (key : AckKey) (status : Nat) :
    Option (Nat × Nat) × Registry :=
  match lookupR reg key with
  | some r => (some (r, status), reg)
  | none => (none, reg)

theorem lookupR_setR_self (reg : Registry) (k : AckKey) (r : Nat) :
    lookupR (setR reg k r) k = some r := by
  simp [lookupR, setR, List.find?]

/- ### Connection-level UI state (`connect`, lines 77-112) -/

inductive ConnStatus
  | idle | busy | ready
deriving DecidableEq, Repr

inductive OtaStatus
  | idle | running | success | failed
deriving DecidableEq, Repr

/-- The `App` state the claims are about: connection status, OTA status and
the resolver registry. -/
structure AppState where
  connStatus : ConnStatus
  otaStatus : OtaStatus
  ackResolvers : Registry
deriving DecidableEq

/-- The `gattserverdisconnected` handler (lines 97-101): both statuses are
reset to `idle`; nothing else is touched — in particular `ackResolvers` is
left as is, and no pending promise is rejected. -/
def onGattDisconnected (st : AppState) : AppState :=
  { st with connStatus := .idle, otaStatus := .idle }

/- ### The OTA run (`runOta`, lines 114-164) -/

/-- Observable actions of a run: command-channel writes
(`writeValueWithResponse`), data-channel writes (`writeValueWithoutResponse`)
and progress updates (`setProgress` inside the sector loop). -/
inductive Event
  | writeCmd (bytes : List Nat)
  | writeData (bytes : List Nat)
  | progressReport (pct : Nat)
deriving DecidableEq, Repr

/-- Terminal outcome of a run: `setOtaStatus('success')`, or the `catch`
block with the thrown error's message. -/
inductive OtaResult
  | success
  | failed (msg : String)
deriving DecidableEq, Repr

/-- Round-half-even integer division: `a / b` rounded to the nearest
integer, ties to the even quotient — the IEEE-754 rounding applied by
every binary64 operation.  `b` is positive at every use. -/
def rheDiv (a b : Nat) : Nat :=
  if 2 * (a % b) < b then a / b
  else if b < 2 * (a % b) then a / b + 1
  else if (a / b) % 2 = 0 then a / b else a / b + 1

/-- Fuel-bounded search for the least `f` with `t ≤ c * 2 ^ f`: the
(negated) binary exponent of `c / t` when `c ≤ t`. -/
def scaleUp : Nat → Nat → Nat → Nat
  | 0, _, _ => 0
  | fuel + 1, c, t => if t ≤ c then 0 else scaleUp fuel (2 * c) t + 1

/-- Fuel-bounded `⌊log2 n⌋` (0 for `n ≤ 1`): the binary exponent of `n`. -/
def floorLog2 : Nat → Nat → Nat
  | 0, _ => 0
  | fuel + 1, n => if n ≤ 1 then 0 else floorLog2 fuel (n / 2) + 1

/-- `Math.round(((s+1)/totalS)*100)` (line 152) as ECMAScript evaluates it
for `1 ≤ c ≤ t < 2^53`: `c / t` is rounded to the nearest binary64
(round-half-even, 53-bit significand, here `m1 / 2^k`), the product with
the exact double 100 is rounded to the nearest binary64 again
(`m2 / 2^d` by value), and `Math.round` returns the floor of that double's
exact rational value plus one half (ties away from zero).  Doubles are
carried as exact rationals in plain natural-number arithmetic; all values
involved are normal, so no subnormal or overflow cases arise.  (`t = 0`
never occurs: the sector loop is empty then.) -/
def progressPct (c t : Nat) : Nat :=
  if t = 0 then 0
  else
    let f := scaleUp 1200 c t
    let k := 52 + f
    let m1 := rheDiv (c * 2 ^ k) t
    let A := 100 * m1
    let L := floorLog2 1200 A
    let m2 := if L ≤ 52 then A * 2 ^ (52 - L) else rheDiv A (2 ^ (L - 52))
    let d := k + 52 - L
    (2 * m2 + 2 ^ d) / 2 ^ (d + 1)

/-- The specification's reading of the progress formula,
`round(100 * (completedSectors / totalSectors))` over exact rationals:
`⌊100 * c / t + 1/2⌋`.  Stated from the spec's words for comparison with
the program's double-arithmetic `progressPct`, which deviates from it at
some realizable inputs. -/
def progressPctSpec (c t : Nat) : Nat := (200 * c + t) / (2 * t)

/-- The start command buffer (lines 126-129): opcode `0x0001` (u16 LE) then
the image length (u32 LE). -/
def startCmdBytes (len : Nat) : List Nat := u16le 1 ++ u32le len

/-- The finish command buffer (line 155): `new Uint8Array([0x02, 0x00])`. -/
def finishCmdBytes : List Nat := [0x02, 0x00]

/-- Is this event a data-channel write? -/
def Event.isData : Event → Bool
  | .writeData _ => true
  | _ => false

/-- The decoded sector index of a data write, `none` for other events. -/
def evSector : Event → Option Nat
  | .writeData bs => some (pktSector bs)
  | _ => none

/-- The reported percentage of a progress event, `none` for other events. -/
def evProgress : Event → Option Nat
  | .progressReport p => some p
  | _ => none

/-- The sector loop (lines 137-153), processing the list of remaining sector
indices.  For each index: all packets of the sector are written to the data
channel, then `sector_<s>` is awaited; a timeout throws `ACK Timeout`, a
non-zero status throws `Sector Error`, a zero status reports progress and
continues.  Returns the emitted events and the thrown message, if any. -/
def runSectors (sectorSize : Nat) (raw : List Nat) (pSize totalS : Nat)
    (ack : AckKey → Option Nat) : List Nat → List Event × Option String
  | [] => ([], none)
  | s :: rest =>
    let sData := sectorDataAt sectorSize raw s
    let pktEvs := (packetsOf s sData pSize).map Event.writeData
    match ack (.sector s) with
    | none => (pktEvs, some "ACK Timeout")
    | some st =>
      if st ≠ 0 then (pktEvs, some "Sector Error")
      else
        let res := runSectors sectorSize raw pSize totalS ack rest
        (pktEvs ++ Event.progressReport (progressPct (s + 1) totalS) :: res.1,
          res.2)

/-- The whole `runOta` body (lines 114-164): start command, `cmd_1` await
(non-zero status throws `Rejected`), the sector loop, the finish command and
the `cmd_2` await — whose status the code discards, so any received
acknowledgement leads to `success`. -/
def runOtaModel (raw : List Nat) (fastMode : Bool) (ack : AckKey → Option Nat) :
    List Event × OtaResult :=
  let startEv := Event.writeCmd (startCmdBytes raw.length)
  match ack (.cmd 1) with
  | none => ([startEv], .failed "ACK Timeout")
  | some st =>
    if st ≠ 0 then ([startEv], .failed "Rejected")
    else
      let totalS := ceilDiv raw.length SECTOR_SIZE
      let pSize := pSizeOf fastMode
      let body := runSectors SECTOR_SIZE raw pSize totalS ack (List.range totalS)
      match body.2 with
      | some msg => (startEv :: body.1, .failed msg)
      | none =>
        match ack (.cmd 2) with
        | none => (startEv :: body.1 ++ [Event.writeCmd finishCmdBytes],
            .failed "ACK Timeout")
        | some _ => (startEv :: body.1 ++ [Event.writeCmd finishCmdBytes],
            .success)

/-- The final value of the `progress` state after a run: `setProgress(0)` at
the start (line 118), then each progress event overwrites it. -/
def finalProgress (evs : List Event) : Nat :=
  evs.foldl (fun acc ev => match ev with
    | .progressReport p => p
    | _ => acc) 0

/-- The events one successful sector contributes to the trace: its packets,
then the progress report (lines 141-152). -/
def sectorBlock (sectorSize : Nat) (raw : List Nat) (pSize totalS s : Nat) :
    List Event :=
  (packetsOf s (sectorDataAt sectorSize raw s) pSize).map Event.writeData ++
    [Event.progressReport (progressPct (s + 1) totalS)]

/- ### Helper lemmas about packets and sectors -/

theorem pSizeOf_pos (mode : Bool) : 0 < pSizeOf mode := by
  cases mode <;> decide

theorem payload_packetBytes (s : Nat) (sData : List Nat) (pSize p : Nat) :
    payloadOf (packetBytes s sData pSize p) = chunkAt pSize sData p := by
  simp [payloadOf, packetBytes, u16le]

theorem seq_packetBytes (s : Nat) (sData : List Nat) (pSize p : Nat) :
    seqOf (packetBytes s sData pSize p) =
      if p = numChunks pSize sData - 1 then 255 else p % 256 := by
  simp only [packetBytes, u16le]
  rfl

theorem packetsOf_length (s : Nat) (sData : List Nat) (pSize : Nat) :
    (packetsOf s sData pSize).length = numChunks pSize sData := by
  simp [packetsOf]

theorem sectorDataAt_length (size : Nat) (raw : List Nat) (s : Nat) :
    (sectorDataAt size raw s).length = min size (raw.length - s * size) :=
  chunkAt_length size raw s

theorem sectorData_len_le (raw : List Nat) (s : Nat) :
    (sectorDataAt SECTOR_SIZE raw s).length ≤ SECTOR_SIZE := by
  rw [sectorDataAt_length]
  exact Nat.min_le_left _ _

theorem sectorData_len_pos (raw : List Nat) (s : Nat)
    (hs : s < ceilDiv raw.length SECTOR_SIZE) :
    0 < (sectorDataAt SECTOR_SIZE raw s).length := by
  rw [sectorDataAt_length]
  have h := lt_of_lt_ceilDiv raw.length SECTOR_SIZE s (by decide) hs
  have : (0:Nat) < SECTOR_SIZE := by decide
  omega

theorem numChunks_sector_le (mode : Bool) (sData : List Nat)
    (h : sData.length ≤ SECTOR_SIZE) :
    numChunks (pSizeOf mode) sData ≤ 205 := by
  unfold numChunks
  cases mode with
  | false =>
    calc ceilDiv sData.length (pSizeOf false)
        ≤ ceilDiv SECTOR_SIZE (pSizeOf false) := ceilDiv_le_of_le _ _ _ h
      _ = 205 := by decide
  | true =>
    calc ceilDiv sData.length (pSizeOf true)
        ≤ ceilDiv SECTOR_SIZE (pSizeOf true) := ceilDiv_le_of_le _ _ _ h
      _ ≤ 205 := by decide

/- ### Claim theorems: framing -/

/-- C3: partitioning the image into sectors of at most `SECTOR_SIZE = 4096`
bytes yields sectors whose lengths sum exactly to the image length, with
sector count `ceil(length / 4096)`, zero sectors for a zero-length image,
and every sector except possibly the last of exactly 4096 bytes. -/
theorem sectors_partition_spec (raw : List Nat) :
    ((sectorsOf SECTOR_SIZE raw).map List.length).sum = raw.length ∧
    (sectorsOf SECTOR_SIZE raw).length = ceilDiv raw.length SECTOR_SIZE ∧
    (raw.length = 0 → sectorsOf SECTOR_SIZE raw = []) ∧
    (∀ i, i + 1 < ceilDiv raw.length SECTOR_SIZE →
      (sectorDataAt SECTOR_SIZE raw i).length = SECTOR_SIZE) := by
  refine ⟨?_, ?_, ?_, ?_⟩
  · have h := congrArg List.length (flatten_chunks SECTOR_SIZE raw (by decide))
    rw [List.length_flatten] at h
    simpa [sectorsOf, sectorDataAt, numChunks, Function.comp] using h
  · simp [sectorsOf]
  · intro h
    have h0 : ceilDiv raw.length SECTOR_SIZE = 0 := by
      rw [h]; decide
    simp [sectorsOf, h0]
  · intro i hi
    have h := lt_of_lt_ceilDiv raw.length SECTOR_SIZE (i + 1) (by decide) hi
    rw [Nat.succ_mul] at h
    rw [sectorDataAt_length]
    omega

/-- C3 witness: the partition facts evaluated on a concrete 5000-byte image. -/
theorem sectors_partition_spec_witness :
    ((sectorsOf SECTOR_SIZE (List.replicate 5000 0)).map List.length).sum = 5000 ∧
    (sectorsOf SECTOR_SIZE (List.replicate 5000 0)).length = 2 ∧
    (sectorDataAt SECTOR_SIZE (List.replicate 5000 0) 0).length = SECTOR_SIZE := by
  have h := sectors_partition_spec (List.replicate 5000 0)
  obtain ⟨h1, h2, -, h4⟩ := h
  rw [List.length_replicate] at h1 h2
  refine ⟨h1, ?_, ?_⟩
  · rw [h2]; decide
  · exact h4 0 (by rw [List.length_replicate]; decide)

/-- C2: for every sector of the image and both payload sizes, concatenating
the packet payloads in transmission order reconstructs the sector
byte-for-byte; there is at least one packet, the last packet (and only the
last) carries the `0xFF` sentinel sequence byte, and every earlier packet
carries its own index `0, 1, 2, ...` as sequence byte. -/
theorem sector_packets_spec (raw : List Nat) (mode : Bool) (s : Nat)
    (hs : s < ceilDiv raw.length SECTOR_SIZE) :
    ((packetsOf s (sectorDataAt SECTOR_SIZE raw s) (pSizeOf mode)).map
        payloadOf).flatten = sectorDataAt SECTOR_SIZE raw s ∧
    0 < (packetsOf s (sectorDataAt SECTOR_SIZE raw s) (pSizeOf mode)).length ∧
    (∀ p, (hp : p < (packetsOf s (sectorDataAt SECTOR_SIZE raw s)
        (pSizeOf mode)).length) →
      seqOf ((packetsOf s (sectorDataAt SECTOR_SIZE raw s) (pSizeOf mode)).get
          ⟨p, hp⟩) =
        if p + 1 = (packetsOf s (sectorDataAt SECTOR_SIZE raw s)
            (pSizeOf mode)).length
        then 255 else p) := by
  have hpos : 0 < (sectorDataAt SECTOR_SIZE raw s).length :=
    sectorData_len_pos raw s hs
  have hnum : 0 < numChunks (pSizeOf mode) (sectorDataAt SECTOR_SIZE raw s) :=
    ceilDiv_pos _ _ (pSizeOf_pos mode) hpos
  have hle : numChunks (pSizeOf mode) (sectorDataAt SECTOR_SIZE raw s) ≤ 205 :=
    numChunks_sector_le mode _ (sectorData_len_le raw s)
  refine ⟨?_, ?_, ?_⟩
  · rw [packetsOf, List.map_map]
    have heq : payloadOf ∘ packetBytes s (sectorDataAt SECTOR_SIZE raw s)
        (pSizeOf mode) = chunkAt (pSizeOf mode) (sectorDataAt SECTOR_SIZE raw s) := by
      funext p
      exact payload_packetBytes s _ _ p
    rw [heq]
    exact flatten_chunks _ _ (pSizeOf_pos mode)
  · rw [packetsOf_length]
    exact hnum
  · intro p hp
    have hp' : p < numChunks (pSizeOf mode) (sectorDataAt SECTOR_SIZE raw s) := by
      rwa [packetsOf_length] at hp
    rw [List.get_eq_getElem]
    simp only [packetsOf, List.getElem_map, List.getElem_range, List.length_map,
      List.length_range]
    rw [seq_packetBytes]
    by_cases hlast : p + 1 = numChunks (pSizeOf mode) (sectorDataAt SECTOR_SIZE raw s)
    · rw [if_pos (by omega), if_pos hlast]
    · rw [if_neg (by omega), if_neg hlast]
      exact Nat.mod_eq_of_lt (by omega)

/-- C2 witness: a sector of a concrete 30-byte image in safe mode. -/
theorem sector_packets_spec_witness :
    ((packetsOf 0 (sectorDataAt SECTOR_SIZE (List.replicate 30 7) 0)
        (pSizeOf false)).map payloadOf).flatten =
      sectorDataAt SECTOR_SIZE (List.replicate 30 7) 0 ∧
    0 < (packetsOf 0 (sectorDataAt SECTOR_SIZE (List.replicate 30 7) 0)
        (pSizeOf false)).length := by
  have h := sector_packets_spec (List.replicate 30 7) false 0
    (by rw [List.length_replicate]; decide)
  exact ⟨h.1, h.2.1⟩

/-- C10: for both payload sizes (20 in safe mode, 244 in fast mode) and any
sector of at most 4096 bytes, a sector produces at most
`ceil(4096/20) = 205` packets, so every non-terminal sequence byte is the
packet index itself, at most 204, and never collides with the `0xFF`
sentinel — the 8-bit sequence field cannot overflow. -/
theorem seq_no_overflow (sData : List Nat) (mode : Bool) (s : Nat)
    (h : sData.length ≤ SECTOR_SIZE) :
    numChunks (pSizeOf mode) sData ≤ 205 ∧
    (∀ p, p + 1 < numChunks (pSizeOf mode) sData →
      seqOf (packetBytes s sData (pSizeOf mode) p) = p ∧ p ≤ 204 ∧ p ≠ 255) := by
  have hle := numChunks_sector_le mode sData h
  refine ⟨hle, ?_⟩
  intro p hp
  have h1 : seqOf (packetBytes s sData (pSizeOf mode) p) = p := by
    rw [seq_packetBytes, if_neg (by omega)]
    exact Nat.mod_eq_of_lt (by omega)
  exact ⟨h1, by omega, by omega⟩

/- ### Structure of the sector loop trace -/

theorem runSectors_all_ok (sectorSize : Nat) (raw : List Nat)
    (pSize totalS : Nat) (ack : AckKey → Option Nat) :
    ∀ l : List Nat, (∀ s ∈ l, ack (.sector s) = some 0) →
      runSectors sectorSize raw pSize totalS ack l =
        ((l.map (sectorBlock sectorSize raw pSize totalS)).flatten, none) := by
  intro l
  induction l with
  | nil => intro _; rfl
  | cons s rest ih =>
    intro h
    have hs : ack (.sector s) = some 0 := h s (List.mem_cons_self s rest)
    have hrest := ih (fun x hx => h x (List.mem_cons_of_mem s hx))
    simp only [runSectors, hs, hrest]
    simp [sectorBlock]

/-- The shape of the sector-loop trace over `range' a n`: some number `k` of
sectors complete (each acknowledged with status 0, each contributing its
block), and if `k < n` the loop stops at sector `a + k`, whose packets were
all written before its acknowledgement failed. -/
theorem runSectors_trace_shape (sectorSize : Nat) (raw : List Nat)
    (pSize totalS : Nat) (ack : AckKey → Option Nat) :
    ∀ n a, ∃ k, k ≤ n ∧
      (∀ j, a ≤ j → j < a + k → ack (.sector j) = some 0) ∧
      (k < n → ack (.sector (a + k)) ≠ some 0) ∧
      (runSectors sectorSize raw pSize totalS ack (List.range' a n)).1 =
        ((List.range' a k).map (sectorBlock sectorSize raw pSize totalS)).flatten
          ++ (if k < n
              then (packetsOf (a + k) (sectorDataAt sectorSize raw (a + k))
                  pSize).map Event.writeData
              else []) := by
  intro n
  induction n with
  | zero =>
    intro a
    exact ⟨0, Nat.le_refl 0, fun j h1 h2 => absurd h2 (by omega),
      fun h => absurd h (by omega), by simp [List.range', runSectors]⟩
  | succ n ih =>
    intro a
    rw [List.range'_succ a n 1]
    match hack : ack (.sector a) with
    | none =>
      refine ⟨0, by omega, fun j h1 h2 => absurd h2 (by omega), ?_, ?_⟩
      · intro _
        rw [Nat.add_zero, hack]
        exact fun h => Option.noConfusion h
      · simp only [runSectors, hack]
        simp
    | some st =>
      by_cases hzero : st = 0
      · subst hzero
        obtain ⟨k, hk, hguard, hstop, heq⟩ := ih (a + 1)
        refine ⟨k + 1, by omega, ?_, ?_, ?_⟩
        · intro j h1 h2
          rcases Nat.eq_or_lt_of_le h1 with h1' | h1'
          · rw [← h1']; exact hack
          · exact hguard j h1' (by omega)
        · intro hlt
          have hA : a + (k + 1) = (a + 1) + k := by omega
          rw [hA]
          exact hstop (by omega)
        · have hA : a + (k + 1) = (a + 1) + k := by omega
          simp only [runSectors, hack, if_neg (by decide : ¬(0 ≠ 0))]
          rw [List.range'_succ a k 1, List.map_cons, List.flatten_cons, heq]
          by_cases hkn : k < n
          · rw [if_pos hkn, if_pos (by omega : k + 1 < n + 1), hA]
            simp [sectorBlock]
          · rw [if_neg hkn, if_neg (by omega : ¬(k + 1 < n + 1))]
            simp [sectorBlock]
      · refine ⟨0, by omega, fun j h1 h2 => absurd h2 (by omega), ?_, ?_⟩
        · intro _
          rw [Nat.add_zero, hack]
          intro h
          exact hzero (Option.some.injEq _ _ ▸ h)
        · simp only [runSectors, hack, if_pos hzero]
          simp

theorem filter_flatten_blocks (p : Event → Bool) :
    ∀ L : List (List Event),
      L.flatten.filter p = (L.map (List.filter p)).flatten := by
  intro L
  induction L with
  | nil => rfl
  | cons h t ih => simp [List.filter_append, ih]

theorem filterMap_flatten_blocks (f : Event → Option Nat) :
    ∀ L : List (List Event),
      L.flatten.filterMap f = (L.map (List.filterMap f)).flatten := by
  intro L
  induction L with
  | nil => rfl
  | cons h t ih => simp [List.filterMap_append, ih]

theorem filter_isData_map_writeData (pkts : List (List Nat)) :
    (pkts.map Event.writeData).filter Event.isData = pkts.map Event.writeData := by
  rw [List.filter_map]
  have : (Event.isData ∘ Event.writeData) = fun _ => true := by
    funext x; rfl
  rw [this, List.filter_true]

theorem filter_isData_block (sectorSize : Nat) (raw : List Nat)
    (pSize totalS s : Nat) :
    (sectorBlock sectorSize raw pSize totalS s).filter Event.isData =
      (packetsOf s (sectorDataAt sectorSize raw s) pSize).map Event.writeData := by
  unfold sectorBlock
  rw [List.filter_append, filter_isData_map_writeData]
  simp [Event.isData]

theorem filterMap_evProgress_map_writeData (pkts : List (List Nat)) :
    (pkts.map Event.writeData).filterMap evProgress = [] := by
  rw [List.filterMap_map]
  have : (evProgress ∘ Event.writeData) = fun _ => none := by
    funext x; rfl
  rw [this]
  simp

theorem filterMap_evProgress_block (sectorSize : Nat) (raw : List Nat)
    (pSize totalS s : Nat) :
    (sectorBlock sectorSize raw pSize totalS s).filterMap evProgress =
      [progressPct (s + 1) totalS] := by
  unfold sectorBlock
  rw [List.filterMap_append, filterMap_evProgress_map_writeData]
  rfl

/-- C10 witness: a concrete 100-byte sector in safe mode. -/
theorem seq_no_overflow_witness :
    numChunks (pSizeOf false) (List.replicate 100 1) ≤ 205 ∧
    seqOf (packetBytes 0 (List.replicate 100 1) (pSizeOf false) 0) = 0 := by
  have h := seq_no_overflow (List.replicate 100 1) false 0
    (by rw [List.length_replicate]; decide)
  refine ⟨h.1, (h.2 0 ?_).1⟩
  unfold numChunks
  rw [List.length_replicate]
  decide

theorem flatten_singletons (g : Nat → Nat) :
    ∀ l : List Nat, (l.map (fun s => [g s])).flatten = l.map g := by
  intro l
  induction l with
  | nil => rfl
  | cons h t ih => simp [ih]

/-- C8: once a transfer is negotiated, the data writes of the run are
exactly the packets of sectors `0, 1, ..., K-1` (for some `K ≤ totalS`)
concatenated in index order with no skipping or reordering, where every
sector below `K - 1` was acknowledged with status 0 before the next
sector's packets were written; if not all sectors completed, the first
unacknowledged sector is the last whose packets appear.  In particular no
packet of sector `i+1` is written unless `sector:i` was acknowledged with
status 0. -/
theorem data_writes_in_order (raw : List Nat) (mode : Bool)
    (ack : AckKey → Option Nat) (hneg : ack (.cmd 1) = some 0) :
    ∃ k, k ≤ ceilDiv raw.length SECTOR_SIZE ∧
      (∀ j, j < k → ack (.sector j) = some 0) ∧
      (k < ceilDiv raw.length SECTOR_SIZE → ack (.sector k) ≠ some 0) ∧
      (runOtaModel raw mode ack).1.filter Event.isData =
        ((List.range (min (k + 1) (ceilDiv raw.length SECTOR_SIZE))).map
          (fun s => (packetsOf s (sectorDataAt SECTOR_SIZE raw s)
              (pSizeOf mode)).map Event.writeData)).flatten := by
  obtain ⟨k, hk, hguard, hstop, heq⟩ :=
    runSectors_trace_shape SECTOR_SIZE raw (pSizeOf mode)
      (ceilDiv raw.length SECTOR_SIZE) ack (ceilDiv raw.length SECTOR_SIZE) 0
  refine ⟨k, hk, fun j hj => hguard j (Nat.zero_le j) (by omega),
    fun h => by simpa using hstop h, ?_⟩
  have hbody : (runOtaModel raw mode ack).1.filter Event.isData =
      (runSectors SECTOR_SIZE raw (pSizeOf mode)
        (ceilDiv raw.length SECTOR_SIZE) ack
        (List.range (ceilDiv raw.length SECTOR_SIZE))).1.filter Event.isData := by
    simp only [runOtaModel, hneg, if_neg (by decide : ¬((0:Nat) ≠ 0))]
    cases hb : (runSectors SECTOR_SIZE raw (pSizeOf mode)
        (ceilDiv raw.length SECTOR_SIZE) ack
        (List.range (ceilDiv raw.length SECTOR_SIZE))).2 with
    | some msg => simp [List.filter, Event.isData]
    | none =>
      cases hc : ack (.cmd 2) with
      | none => simp [List.filter_append, List.filter, Event.isData]
      | some st => simp [List.filter_append, List.filter, Event.isData]
  rw [hbody, List.range_eq_range', heq, List.filter_append,
    filter_flatten_blocks, List.map_map]
  have hmap : List.filter Event.isData ∘
      sectorBlock SECTOR_SIZE raw (pSizeOf mode) (ceilDiv raw.length SECTOR_SIZE)
      = fun s => (packetsOf s (sectorDataAt SECTOR_SIZE raw s)
          (pSizeOf mode)).map Event.writeData := by
    funext s
    exact filter_isData_block SECTOR_SIZE raw (pSizeOf mode) _ s
  rw [hmap]
  by_cases hkT : k < ceilDiv raw.length SECTOR_SIZE
  · rw [if_pos hkT, filter_isData_map_writeData]
    have hmin : min (k + 1) (ceilDiv raw.length SECTOR_SIZE) = k + 1 := by omega
    rw [hmin, List.range_succ, List.map_append, List.flatten_append]
    simp [List.range_eq_range']
  · rw [if_neg hkT]
    have hke : k = ceilDiv raw.length SECTOR_SIZE := by omega
    have hmin : min (k + 1) (ceilDiv raw.length SECTOR_SIZE) =
        ceilDiv raw.length SECTOR_SIZE := by omega
    rw [hmin, List.filter_nil, List.append_nil, hke, List.range_eq_range']

/-- C8 witness: the ordered-packets characterization evaluated on a
concrete 30-byte image with all acknowledgements succeeding. -/
theorem data_writes_in_order_witness :
    ∃ k, k ≤ ceilDiv (List.replicate 30 7).length SECTOR_SIZE ∧
      (∀ j, j < k → (fun (_ : AckKey) => some 0) (.sector j) = some 0) ∧
      (k < ceilDiv (List.replicate 30 7).length SECTOR_SIZE →
        (fun (_ : AckKey) => some 0) (.sector k) ≠ some 0) ∧
      (runOtaModel (List.replicate 30 7) false
          (fun _ => some 0)).1.filter Event.isData =
        ((List.range (min (k + 1)
            (ceilDiv (List.replicate 30 7).length SECTOR_SIZE))).map
          (fun s => (packetsOf s (sectorDataAt SECTOR_SIZE (List.replicate 30 7) s)
              (pSizeOf false)).map Event.writeData)).flatten :=
  data_writes_in_order (List.replicate 30 7) false (fun _ => some 0) rfl

/-- The progress events of a fully acknowledged run, in order: one per
sector, computed by `progressPct` (shared helper for the progress claims). -/
theorem progress_trace_eq (raw : List Nat) (mode : Bool)
    (ack : AckKey → Option Nat) (h1 : ack (.cmd 1) = some 0)
    (hsec : ∀ j, ack (.sector j) = some 0) :
    (runOtaModel raw mode ack).1.filterMap evProgress =
      (List.range (ceilDiv raw.length SECTOR_SIZE)).map
        (fun s => progressPct (s + 1) (ceilDiv raw.length SECTOR_SIZE)) := by
  have hall := runSectors_all_ok SECTOR_SIZE raw (pSizeOf mode)
    (ceilDiv raw.length SECTOR_SIZE) ack
    (List.range (ceilDiv raw.length SECTOR_SIZE)) (fun s _ => hsec s)
  have hblocks : (((List.range (ceilDiv raw.length SECTOR_SIZE)).map
      (sectorBlock SECTOR_SIZE raw (pSizeOf mode)
        (ceilDiv raw.length SECTOR_SIZE))).flatten).filterMap evProgress =
      (List.range (ceilDiv raw.length SECTOR_SIZE)).map
        (fun s => progressPct (s + 1) (ceilDiv raw.length SECTOR_SIZE)) := by
    rw [filterMap_flatten_blocks, List.map_map]
    have hm : List.filterMap evProgress ∘
        sectorBlock SECTOR_SIZE raw (pSizeOf mode)
          (ceilDiv raw.length SECTOR_SIZE) =
        fun s => [progressPct (s + 1) (ceilDiv raw.length SECTOR_SIZE)] := by
      funext s
      exact filterMap_evProgress_block SECTOR_SIZE raw (pSizeOf mode) _ s
    rw [hm, flatten_singletons]
  simp only [runOtaModel, h1, if_neg (by decide : ¬((0:Nat) ≠ 0)), hall]
  cases hc : ack (.cmd 2) with
  | none => simpa [List.filterMap_append, evProgress] using hblocks
  | some st => simpa [List.filterMap_append, evProgress] using hblocks

/-- C7 counterexample: for a 159745-byte image (40 sectors), the progress
event reported after the sector of index 22 is `progressPct 23 40 = 57` —
the value the code's double arithmetic produces,
`Math.round((23/40)*100)` with `23/40` rounding to the binary64 just below
`0.575` — while the claim's exact formula `round(100*(23/40))` gives 58. -/
theorem progress_round_deviates :
    (runOtaModel (List.replicate 159745 0) false (fun _ => some 0)).1.filterMap
        evProgress =
      (List.range 40).map (fun s => progressPct (s + 1) 40) ∧
    ((List.range 40).map (fun s => progressPct (s + 1) 40))[22]? = some 57 ∧
    progressPct 23 40 = 57 ∧
    progressPctSpec 23 40 = 58 := by
  refine ⟨?_, by decide, by decide, by decide⟩
  have h := progress_trace_eq (List.replicate 159745 0) false (fun _ => some 0)
    rfl (fun j => rfl)
  have hT : ceilDiv (List.replicate 159745 0).length SECTOR_SIZE = 40 := by
    rw [List.length_replicate]; decide
  rw [hT] at h
  exact h

/-- C7 amended: after each sector's acknowledgement succeeds, the progress
events of a run are exactly the values the code's IEEE-double evaluation of
`Math.round(((s+1)/totalS)*100)` produces (`progressPct`), one per
completed sector in order — these can deviate from the exact rational
`round(100*c/t)` (57 instead of 58 at sector 23 of 40); for a 5000-byte
image in safe mode, where the double computation is exact, there are 2
sectors of 4096 and 904 bytes producing 205 and 46 packets, and the
progress events are exactly 50 then 100. -/
theorem progress_events_spec (raw : List Nat) (mode : Bool)
    (ack : AckKey → Option Nat) (h1 : ack (.cmd 1) = some 0)
    (hsec : ∀ j, ack (.sector j) = some 0) :
    (runOtaModel raw mode ack).1.filterMap evProgress =
      (List.range (ceilDiv raw.length SECTOR_SIZE)).map
        (fun s => progressPct (s + 1) (ceilDiv raw.length SECTOR_SIZE)) ∧
    (raw.length = 5000 → mode = false →
      ceilDiv raw.length SECTOR_SIZE = 2 ∧
      (sectorDataAt SECTOR_SIZE raw 0).length = 4096 ∧
      (sectorDataAt SECTOR_SIZE raw 1).length = 904 ∧
      (packetsOf 0 (sectorDataAt SECTOR_SIZE raw 0) (pSizeOf mode)).length = 205 ∧
      (packetsOf 1 (sectorDataAt SECTOR_SIZE raw 1) (pSizeOf mode)).length = 46 ∧
      (runOtaModel raw mode ack).1.filterMap evProgress = [50, 100]) := by
  have hgen := progress_trace_eq raw mode ack h1 hsec
  refine ⟨hgen, ?_⟩
  intro hlen hmode
  subst hmode
  have hT : ceilDiv raw.length SECTOR_SIZE = 2 := by rw [hlen]; decide
  have hs0 : (sectorDataAt SECTOR_SIZE raw 0).length = 4096 := by
    rw [sectorDataAt_length, hlen]; decide
  have hs1 : (sectorDataAt SECTOR_SIZE raw 1).length = 904 := by
    rw [sectorDataAt_length, hlen]; decide
  refine ⟨hT, hs0, hs1, ?_, ?_, ?_⟩
  · rw [packetsOf_length]
    unfold numChunks
    rw [hs0]
    decide
  · rw [packetsOf_length]
    unfold numChunks
    rw [hs1]
    decide
  · rw [hgen, hT]
    decide

/-- C7 witness: the scenario evaluated on a concrete 5000-byte image in
safe mode with all acknowledgements succeeding. -/
theorem progress_events_spec_witness :
    (runOtaModel (List.replicate 5000 0) false
        (fun _ => some 0)).1.filterMap evProgress = [50, 100] := by
  have h := progress_events_spec (List.replicate 5000 0) false
    (fun _ => some 0) rfl (fun j => rfl)
  exact (h.2 (by rw [List.length_replicate]) rfl).2.2.2.2.2

/-- C1 counterexample: with the finish acknowledgement carrying non-zero
status 5, the run still terminates in `Succeeded` — the code discards the
`cmd_2` status (line 156), so a non-zero finish status is not guarded
against and not treated as a failure. -/
theorem finish_nonzero_still_succeeds :
    (fun k => if k = AckKey.cmd 2 then some 5 else some 0) (AckKey.cmd 2) =
      some 5 ∧
    (runOtaModel [] false
      (fun k => if k = AckKey.cmd 2 then some 5 else some 0)).2 = .success := by
  exact ⟨rfl, rfl⟩

/-- C1 amended: in the Finalizing phase, after the finish command (opcode
0x0002) is written and the acknowledgement for `cmd_2` is awaited, any
received acknowledgement — zero or non-zero status alike — transitions the
session to Succeeded; only a missing acknowledgement (timeout) fails the
session, with `ACK Timeout`. -/
theorem finish_status_ignored (raw : List Nat) (mode : Bool)
    (ack : AckKey → Option Nat) (h1 : ack (.cmd 1) = some 0)
    (hsec : ∀ j, ack (.sector j) = some 0) :
    (∀ st, ack (.cmd 2) = some st → (runOtaModel raw mode ack).2 = .success) ∧
    (ack (.cmd 2) = none →
      (runOtaModel raw mode ack).2 = .failed "ACK Timeout") := by
  have hall := runSectors_all_ok SECTOR_SIZE raw (pSizeOf mode)
    (ceilDiv raw.length SECTOR_SIZE) ack
    (List.range (ceilDiv raw.length SECTOR_SIZE)) (fun s _ => hsec s)
  constructor
  · intro st hst
    simp [runOtaModel, h1, hall, hst]
  · intro hst
    simp [runOtaModel, h1, hall, hst]

/-- C1 witness: a concrete 3-byte image where the finish acknowledgement
carries status 5 and the run succeeds. -/
theorem finish_status_ignored_witness :
    (runOtaModel [0, 1, 2] false
      (fun k => if k = AckKey.cmd 2 then some 5 else some 0)).2 = .success := by
  have h := finish_status_ignored [0, 1, 2] false
    (fun k => if k = AckKey.cmd 2 then some 5 else some 0) rfl (fun j => rfl)
  exact h.1 5 rfl

/-- C6 counterexample: for a 0-byte image the run does succeed, but the
final reported progress is 0 — `setProgress(0)` at line 118 is never
followed by any progress update because the sector loop runs zero times —
not 100 as the claim states. -/
theorem empty_image_final_progress_zero :
    (runOtaModel [] false (fun _ => some 0)).2 = .success ∧
    finalProgress (runOtaModel [] false (fun _ => some 0)).1 = 0 ∧
    finalProgress (runOtaModel [] false (fun _ => some 0)).1 ≠ 100 := by
  refine ⟨rfl, rfl, by decide⟩

/-- C6 amended: a 0-byte image negotiates successfully, transfers zero
sectors, proceeds immediately to finalization, and on finalize success
terminates in Succeeded — but the final reported progress is 0 (the initial
value), not 100, since no progress event is ever emitted. -/
theorem empty_image_run (mode : Bool) (ack : AckKey → Option Nat) (st : Nat)
    (h1 : ack (.cmd 1) = some 0) (h2 : ack (.cmd 2) = some st) :
    runOtaModel [] mode ack =
      ([Event.writeCmd (startCmdBytes 0), Event.writeCmd finishCmdBytes],
        .success) ∧
    ceilDiv ([] : List Nat).length SECTOR_SIZE = 0 ∧
    finalProgress (runOtaModel [] mode ack).1 = 0 := by
  have hT : ceilDiv ([] : List Nat).length SECTOR_SIZE = 0 := by decide
  have hrun : runOtaModel [] mode ack =
      ([Event.writeCmd (startCmdBytes 0), Event.writeCmd finishCmdBytes],
        .success) := by
    simp [runOtaModel, h1, h2, hT, runSectors]
  refine ⟨hrun, hT, ?_⟩
  rw [hrun]
  rfl

/-- C6 witness: the empty-image run evaluated with concrete all-zero
acknowledgements. -/
theorem empty_image_run_witness :
    runOtaModel [] false (fun _ => some 0) =
      ([Event.writeCmd (startCmdBytes 0), Event.writeCmd finishCmdBytes],
        .success) ∧
    finalProgress (runOtaModel [] false (fun _ => some 0)).1 = 0 := by
  have h := empty_image_run false (fun _ => some 0) 0 rfl rfl
  exact ⟨h.1, h.2.2⟩

/- ### Registry behavior under lookups and overwrites -/

theorem lookupR_cons_of_ne (a : AckKey × Nat) (tl : Registry) (k' : AckKey)
    (h : a.1 ≠ k') : lookupR (a :: tl) k' = lookupR tl k' := by
  unfold lookupR
  rw [List.find?_cons_of_neg]
  simp [h]

theorem lookupR_cons_of_eq (a : AckKey × Nat) (tl : Registry) (k' : AckKey)
    (h : a.1 = k') : lookupR (a :: tl) k' = some a.2 := by
  unfold lookupR
  rw [List.find?_cons_of_pos]
  · rfl
  · simp [h]

theorem lookupR_setR_ne (reg : Registry) (k k' : AckKey) (r : Nat)
    (h : k' ≠ k) : lookupR (setR reg k r) k' = lookupR reg k' := by
  unfold setR
  rw [lookupR_cons_of_ne (k, r) _ k' (fun he => h he.symm)]
  induction reg with
  | nil => rfl
  | cons a tl ih =>
    by_cases ha : a.1 = k
    · rw [List.filter_cons_of_neg (by simp [ha]), ih,
        lookupR_cons_of_ne a tl k' (by rw [ha]; exact fun he => h he.symm)]
    · rw [List.filter_cons_of_pos (by simp [ha])]
      by_cases hk' : a.1 = k'
      · rw [lookupR_cons_of_eq a _ k' hk', lookupR_cons_of_eq a tl k' hk']
      · rw [lookupR_cons_of_ne a _ k' hk', lookupR_cons_of_ne a tl k' hk', ih]

/-- C4 counterexample: with a transfer running and a pending `sector:3`
waiter, the disconnect handler moves the session to `idle` — not `failed`
— and the pending registry entry survives untouched. -/
theorem disconnect_leaves_pending :
    (onGattDisconnected ⟨.ready, .running, [(.sector 3, 7)]⟩).otaStatus
      = .idle ∧
    (onGattDisconnected ⟨.ready, .running, [(.sector 3, 7)]⟩).otaStatus
      ≠ .failed ∧
    lookupR (onGattDisconnected
      ⟨.ready, .running, [(.sector 3, 7)]⟩).ackResolvers (.sector 3)
      = some 7 := by
  refine ⟨rfl, by decide, rfl⟩

/-- C4 amended: on link loss the handler resets both the connection status
and the OTA status to `idle` (never `failed`, and with no `LinkLost` cause),
and leaves every registered PendingAck entry in place — pending waits are
not cancelled and are left to time out on their own. -/
theorem disconnect_resets_to_idle (st : AppState) :
    (onGattDisconnected st).connStatus = .idle ∧
    (onGattDisconnected st).otaStatus = .idle ∧
    (onGattDisconnected st).ackResolvers = st.ackResolvers ∧
    (∀ k, lookupR (onGattDisconnected st).ackResolvers k =
      lookupR st.ackResolvers k) :=
  ⟨rfl, rfl, rfl, fun _ => rfl⟩

/-- C5 counterexample: after the 12000 ms timer fires for a registered
`cmd_1` waiter, the wait fails with `ACK Timeout`, but the stale registry
entry for the key is still present — `wait` never deletes it. -/
theorem timeout_keeps_entry :
    (waitOnTimeout (setR [] (.cmd 1) 7) (.cmd 1)).2 = "ACK Timeout" ∧
    lookupR (waitOnTimeout (setR [] (.cmd 1) 7) (.cmd 1)).1 (.cmd 1)
      = some 7 ∧
    lookupR (waitOnTimeout (setR [] (.cmd 1) 7) (.cmd 1)).1 (.cmd 1)
      ≠ none := by
  refine ⟨rfl, rfl, by decide⟩

/-- C5 amended: if no acknowledgement arrives for a registered key, the
wait fails with `ACK Timeout` after exactly the configured 12000 ms
deadline, but the registry entry for the key is NOT removed on timeout; a
later retry can nevertheless register the same key again because
registration silently overwrites the stale entry. -/
theorem wait_timeout_spec (reg : Registry) (key : AckKey) (rid r1 r2 : Nat) :
    (waitRegister reg key rid).1 = ACK_TIMEOUT_MS ∧
    ACK_TIMEOUT_MS = 12000 ∧
    (waitOnTimeout reg key).2 = "ACK Timeout" ∧
    (waitOnTimeout reg key).1 = reg ∧
    lookupR (setR (setR reg key r1) key r2) key = some r2 :=
  ⟨rfl, rfl, rfl, rfl, lookupR_setR_self _ _ _⟩

/-- C9 counterexample: registering a second waiter for `sector:0` while one
is already pending yields a registry whose entry is the second resolver —
the first was silently replaced and no `DuplicatePendingRequest` error
exists anywhere in the code. -/
theorem duplicate_waiter_silently_replaced :
    lookupR (setR (setR [] (.sector 0) 1) (.sector 0) 2) (.sector 0)
      = some 2 ∧
    lookupR (setR (setR [] (.sector 0) 1) (.sector 0) 2) (.sector 0)
      ≠ some 1 := by
  refine ⟨rfl, by decide⟩

/-- C9 amended: registering a waiter for a key that already has a pending
waiter silently replaces the previous waiter (plain JS property
assignment); other keys are unaffected.  No rejection or
`DuplicatePendingRequest` error path exists. -/
theorem register_overwrites (reg : Registry) (k : AckKey) (r1 r2 : Nat) :
    lookupR (setR (setR reg k r1) k r2) k = some r2 ∧
    (∀ k', k' ≠ k → lookupR (setR reg k r1) k' = lookupR reg k') :=
  ⟨lookupR_setR_self _ _ _, fun k' h => lookupR_setR_ne reg k k' r1 h⟩

/-- C9 witness: overwrite behavior evaluated on concrete keys. -/
theorem register_overwrites_witness :
    lookupR (setR (setR [] (.cmd 1) 3) (.cmd 1) 4) (.cmd 1) = some 4 ∧
    lookupR (setR ([] : Registry) (.cmd 1) 3) (.sector 0) =
      lookupR ([] : Registry) (.sector 0) := by
  have h := register_overwrites [] (.cmd 1) 3 4
  exact ⟨h.1, h.2 (.sector 0) (by decide)⟩

end Ota
